import Mathlib

/-!
# gomonitor: a gin middleware exposing go-monitor aspects

Shallow embedding of `gomonitor/gomonitor.go` (the `Metrics` adapter) and of
`gomonitor/example/main.go` (the `CounterAspect` and its increment hook).

* Go `int` is the 64-bit two's complement integer: an `Int` wrapped by `wrapInt`.
* A method with a pointer receiver is a function from the receiver's state to the
  state after the call (and the returned value, when there is one).
* `gin.Context` and the go-monitor library are not part of the repository: the only
  thing the code does with them is call them, so `c.Next()` is a field of the
  context and the calls on the monitor are recorded in a call log.
-/

namespace Gomonitor

/-! ## Go `int` -/

/-- Largest Go `int` (64-bit). -/
def maxInt : Int := 2 ^ 63 - 1

/-- Smallest Go `int` (64-bit). -/
def minInt : Int := -(2 ^ 63)

/-- Two's complement wrap-around of a mathematical integer into the Go `int` range. -/
def wrapInt (x : Int) : Int := (x + 2 ^ 63) % 2 ^ 64 - 2 ^ 63

/-! ## example/main.go: CounterAspect -/

/-- The struct `CounterAspect` of example/main.go, lines 11-13. -/
structure CounterAspect where
  Count : Int
deriving DecidableEq

namespace CounterAspect

/-- Method `Inc`, lines 15-17: `a.Count++`, in Go `int` arithmetic. -/
def Inc (a : CounterAspect) : CounterAspect :=
  { a with Count := wrapInt (a.Count + 1) }

/-- Method `GetStats`, lines 19-21: `return a.Count`; the second component is the
receiver after the call. -/
def GetStats (a : CounterAspect) : Int × CounterAspect :=
  (a.Count, a)

/-- Method `Name`, lines 23-25: `return "Counter"`. -/
def Name (a : CounterAspect) : String × CounterAspect :=
  ("Counter", a)

/-- Method `InRoot`, lines 27-29: `return false`. -/
def InRoot (a : CounterAspect) : Bool × CounterAspect :=
  (false, a)

end CounterAspect

/-- The three methods of the interface `aspects.Aspect`, the ones the metrics
listener calls on a registered aspect. -/
inductive Accessor where
  | GetStats
  | Name
  | InRoot
deriving DecidableEq

/-- The receiver after one accessor call. -/
def Accessor.run : Accessor → CounterAspect → CounterAspect
  | .GetStats, a => a.GetStats.2
  | .Name, a => a.Name.2
  | .InRoot, a => a.InRoot.2

/-- The receiver after a sequence of accessor calls (snapshot requests served one
after the other). -/
def snapshots (ops : List Accessor) (a : CounterAspect) : CounterAspect :=
  ops.foldl (fun b op => op.run b) a

/-- Modelled from the spec: the route of an aspect in the go-monitor library, which
is not part of the repository ("if the aspect's placement flag indicates root, its
snapshot is served at the top-level path; otherwise it is served at a path segment
equal to the aspect's name"). -/
def routePath (inRoot : Bool) (name : String) : String :=
  if inRoot then "/" else "/" ++ name

/-! ## Memory and the gin request chain -/

/-- A non-nil `*CounterAspect`. -/
abbrev Addr := Nat

/-- Program memory at request time: the `CounterAspect` objects by address, and
everything else (`other`), which the code of the repository never names. -/
structure Store (ρ : Type) where
  aspects : Addr → CounterAspect
  other : ρ

/-- Write the object at address `p`. -/
def Store.set {ρ : Type} (s : Store ρ) (p : Addr) (a : CounterAspect) : Store ρ :=
  { s with aspects := fun q => if q = p then a else s.aspects q }

/-- What the handlers use of `*gin.Context`: `c.Next()` runs the rest of the chain,
a transformation of the program state. -/
structure Context (σ : Type) where
  Next : σ → σ

/-- The type `gin.HandlerFunc`: `func(*gin.Context)`, as a state transformer. -/
def HandlerFunc (σ : Type) : Type := Context σ → σ → σ

/-- The function `monitor_handler` of example/main.go, lines 32-38. -/
def monitor_handler {ρ : Type} (asp : Addr) : HandlerFunc (Store ρ) :=
  let counter := asp
  fun c s =>
    let s1 := s.set counter (s.aspects counter).Inc
    c.Next s1

/-- Sequential requests through one handler, each with its own context. -/
def serve {σ : Type} (h : HandlerFunc σ) : List (Context σ) → σ → σ
  | [], s => s
  | c :: cs, s => serve h cs (h c s)

/-! ## gomonitor.go: Metrics -/

/-- Digit `d` (below ten) as the byte `'0' + d`. -/
def digitByte (d : Nat) : Char := Char.ofNat (48 + d)

/-- Decimal digits of `u`, written from the right in front of `buf`, the way
`fmt` formats `%d`: `for u >= 10 { buf[i] = '0' + u%10; u = u/10 }; buf[i] = '0' + u`.
The first argument bounds the number of iterations. -/
def fmtDigits : Nat → Nat → List Char → List Char
  | 0, _, buf => buf
  | fuel + 1, u, buf =>
    if 10 ≤ u then fmtDigits fuel (u / 10) (digitByte (u % 10) :: buf)
    else digitByte u :: buf

/-- The verb `%d` applied to a Go `int`: a minus sign for a negative value, then the
decimal digits of the magnitude. -/
def fmtInteger (v : Int) : List Char :=
  if v < 0 then '-' :: fmtDigits (v.natAbs + 1) v.natAbs []
  else fmtDigits (v.natAbs + 1) v.natAbs []

/-- The call `fmt.Sprintf(":%d", port)` of gomonitor.go, line 79. -/
def Sprintf (port : Int) : String := String.mk (':' :: fmtInteger port)

/-- A call on the go-monitor library, `α` being the type `aspects.Aspect`. -/
inductive Call (α : Type) where
  | NewMonitor (addr : String)
  | AddAspect (a : α)
  | Start
deriving DecidableEq

/-- The process at start-up: the calls made on the monitor so far, oldest first. -/
structure Proc (α : Type) where
  calls : List (Call α)
deriving DecidableEq

/-- The call `mon.NewMonitor(addr)`. -/
def NewMonitor {α : Type} (addr : String) (p : Proc α) : Proc α :=
  { p with calls := p.calls ++ [Call.NewMonitor addr] }

/-- The call `monitor.AddAspect(aspect)`. -/
def AddAspect {α : Type} (aspect : α) (p : Proc α) : Proc α :=
  { p with calls := p.calls ++ [Call.AddAspect aspect] }

/-- The statement `go monitor.Start()`: the call runs in a new goroutine and the value
it returns there (`startResult`: `none` for no error, `some e` for the error `e`) is
discarded. -/
def goStart {α : Type} (_startResult : Option String) (p : Proc α) : Proc α :=
  { p with calls := p.calls ++ [Call.Start] }

/-- The function `Metrics` of gomonitor.go, lines 78-88. `startResult` is what
`monitor.Start()` returns in its goroutine. -/
def Metrics {α σ : Type} (port : Int) (asp : List α) (startResult : Option String)
    (p : Proc α) : Proc α × HandlerFunc σ :=
  let monitor := NewMonitor (Sprintf port) p
  let monitor := asp.foldl (fun m aspect => AddAspect aspect m) monitor
  let monitor := goStart startResult monitor
  (monitor, fun c s => c.Next s)

/-- The process before `Metrics` runs: no call made yet. -/
def Proc.init {α : Type} : Proc α := { calls := [] }

/-- The aspects registered, in the order of the `AddAspect` calls. -/
def registered {α : Type} : List (Call α) → List α
  | [] => []
  | Call.AddAspect a :: cs => a :: registered cs
  | _ :: cs => registered cs

/-- The listen addresses of the monitors created. -/
def listenAddrs {α : Type} : List (Call α) → List String
  | [] => []
  | Call.NewMonitor addr :: cs => addr :: listenAddrs cs
  | _ :: cs => listenAddrs cs

/-- The value of a string of decimal digits. -/
def decimalValue (ds : List Char) : Nat :=
  ds.foldl (fun acc ch => 10 * acc + (ch.toNat - 48)) 0

/-! ## Two bursts of requests on one CounterAspect

The increment hook runs once per request, each request in a goroutine of its own.
`a.Count++` is `a.Count = a.Count + 1`: a read of the field followed by a write, with
no lock and no atomic operation between them. A burst is a sequence of requests; two
bursts `A` and `B` run concurrently, and a schedule says whose memory access comes
next. The rest of the chain does not access the aspect. -/

/-- The two bursts. -/
inductive Tid where
  | A
  | B
deriving DecidableEq

/-- The shared aspect, and for each burst the value its increment in progress has
read from `a.Count` (`none` between two increments). -/
structure Race where
  asp : CounterAspect
  loadedA : Option Int
  loadedB : Option Int
deriving DecidableEq

/-- One memory access of burst `t`: the read of `a.Count++`, or, when the read is
done, its write. -/
def Race.step (r : Race) : Tid → Race
  | .A =>
    match r.loadedA with
    | none => { r with loadedA := some r.asp.Count }
    | some v => { r with asp := { Count := wrapInt (v + 1) }, loadedA := none }
  | .B =>
    match r.loadedB with
    | none => { r with loadedB := some r.asp.Count }
    | some v => { r with asp := { Count := wrapInt (v + 1) }, loadedB := none }

/-- Run a schedule. -/
def Race.run (sched : List Tid) (r : Race) : Race :=
  sched.foldl Race.step r

/-- No increment in progress, the aspect holding `c`. -/
def Race.init (c : Int) : Race :=
  { asp := { Count := c }, loadedA := none, loadedB := none }

/-- A schedule of two bursts of `n` requests each: every request is two accesses. -/
def IsInterleaving (n : Nat) (sched : List Tid) : Prop :=
  sched.count Tid.A = 2 * n ∧ sched.count Tid.B = 2 * n

/-- The schedule in which the invocations run one at a time, in the given order: the
read and the write of each are adjacent. -/
def serial : List Tid → List Tid
  | [] => []
  | t :: ts => t :: t :: serial ts

/-- A schedule that loses updates: `A` reads, `B` runs its `n` requests, `A` writes and
runs its remaining `n - 1` requests. -/
def lostUpdate (n : Nat) : List Tid :=
  Tid.A :: (List.replicate (2 * n) Tid.B ++ List.replicate (2 * n - 1) Tid.A)

/-! ## Concrete inputs -/

/-- The memory of the example program when it starts serving: the aspect at address 0
holds Count 0. -/
def exampleStore : Store Unit := { aspects := fun _ => { Count := 0 }, other := () }

/-- Five requests whose rest of chain changes nothing. -/
def fiveRequests : List (Context (Store Unit)) := List.replicate 5 { Next := fun t => t }

/-- A context whose rest of chain records, in `other`, the Count it observes. -/
def observingContext : Context (Store (List Int)) :=
  { Next := fun t => { t with other := t.other ++ [(t.aspects 0).Count] } }

/-- The order in which the bursts alternate, request by request. -/
def alternating : Nat → List Tid
  | 0 => []
  | n + 1 => Tid.A :: Tid.B :: alternating n

set_option maxRecDepth 100000

/-! ## Go `int` arithmetic -/

theorem wrapInt_of_range (x : Int) (hlo : minInt ≤ x) (hhi : x ≤ maxInt) : wrapInt x = x := by
  unfold wrapInt
  unfold minInt at hlo
  unfold maxInt at hhi
  norm_num at hlo hhi ⊢
  omega

theorem wrapInt_succ_ne (c : Int) : wrapInt (c + 1) ≠ c := by
  unfold wrapInt
  norm_num
  omega

/-! ## The CounterAspect and its accessors -/

theorem Accessor.run_eq (op : Accessor) (a : CounterAspect) : op.run a = a := by
  cases op <;> rfl

theorem snapshots_eq (ops : List Accessor) (a : CounterAspect) : snapshots ops a = a := by
  induction ops with
  | nil => rfl
  | cons op ops ih =>
    show snapshots ops (op.run a) = a
    rw [Accessor.run_eq]
    exact ih

/-- C4: whatever its Count, a CounterAspect is named "Counter" and is not placed in the
root, so its route is /Counter and not the root path. -/
theorem CounterAspect_name_and_placement (a : CounterAspect) :
    a.Name.1 = "Counter" ∧ a.InRoot.1 = false
      ∧ routePath a.InRoot.1 a.Name.1 = "/Counter"
      ∧ routePath a.InRoot.1 a.Name.1 ≠ "/" := by
  refine ⟨rfl, rfl, ?_, ?_⟩
  · show routePath false "Counter" = "/Counter"
    decide
  · show routePath false "Counter" ≠ "/"
    decide

/-- C9: GetStats, Name and InRoot leave the receiver as it was, so after any sequence of
snapshot requests the aspect is unchanged and GetStats returns the same Count; Inc
always changes Count. -/
theorem accessors_read_only (a : CounterAspect) :
    a.GetStats.2 = a ∧ a.Name.2 = a ∧ a.InRoot.2 = a
      ∧ (∀ ops : List Accessor, snapshots ops a = a
          ∧ (snapshots ops a).GetStats.1 = a.GetStats.1)
      ∧ a.Inc.Count ≠ a.Count := by
  refine ⟨rfl, rfl, rfl, ?_, ?_⟩
  · intro ops
    rw [snapshots_eq]
    exact ⟨rfl, rfl⟩
  · exact wrapInt_succ_ne a.Count

/-! ## The increment hook -/

theorem Store.set_same {ρ : Type} (s : Store ρ) (p : Addr) (a : CounterAspect) :
    (s.set p a).aspects p = a := by
  simp [Store.set]

theorem Store.set_other {ρ : Type} (s : Store ρ) (p q : Addr) (a : CounterAspect)
    (h : q ≠ p) : (s.set p a).aspects q = s.aspects q := by
  simp [Store.set, h]

theorem monitor_handler_eq {ρ : Type} (asp : Addr) (c : Context (Store ρ)) (s : Store ρ) :
    monitor_handler asp c s = c.Next (s.set asp (s.aspects asp).Inc) := rfl

/-- The Count of the aspect at `asp` after the requests `cs`, when the rest of each
chain leaves that aspect as it is. -/
theorem serve_monitor_handler_count {ρ : Type} (asp : Addr) (cs : List (Context (Store ρ)))
    (hframe : ∀ c ∈ cs, ∀ t : Store ρ, (c.Next t).aspects asp = t.aspects asp) :
    ∀ s : Store ρ, minInt ≤ (s.aspects asp).Count →
      (s.aspects asp).Count + cs.length ≤ maxInt →
      ((serve (monitor_handler asp) cs s).aspects asp).Count
        = (s.aspects asp).Count + cs.length := by
  induction cs with
  | nil => intro s _ _; simp [serve]
  | cons c cs ih =>
    intro s hlo hhi
    have hc : ∀ t : Store ρ, (c.Next t).aspects asp = t.aspects asp :=
      hframe c (List.mem_cons_self c cs)
    have hlen : ((c :: cs).length : Int) = (cs.length : Int) + 1 := by
      simp [List.length_cons]
    rw [hlen] at hhi
    have hstep : ((monitor_handler asp c s).aspects asp).Count = (s.aspects asp).Count + 1 := by
      rw [monitor_handler_eq, hc, Store.set_same]
      show wrapInt ((s.aspects asp).Count + 1) = (s.aspects asp).Count + 1
      apply wrapInt_of_range
      · omega
      · have : (0 : Int) ≤ (cs.length : Int) := Int.ofNat_nonneg _
        omega
    have := ih (fun d hd => hframe d (List.mem_cons_of_mem c hd)) (monitor_handler asp c s)
      (by rw [hstep]; omega) (by rw [hstep]; omega)
    show ((serve (monitor_handler asp) cs (monitor_handler asp c s)).aspects asp).Count = _
    rw [this, hstep, hlen]
    ring

/-- C3: after n sequential requests through the increment hook of an aspect whose Count
is c, with c + n within the Go int range and the rest of each chain leaving the aspect
alone, GetStats returns c + n. -/
theorem GetStats_after_requests {ρ : Type} (asp : Addr) (cs : List (Context (Store ρ)))
    (s : Store ρ)
    (hframe : ∀ c ∈ cs, ∀ t : Store ρ, (c.Next t).aspects asp = t.aspects asp)
    (hlo : minInt ≤ (s.aspects asp).Count)
    (hhi : (s.aspects asp).Count + cs.length ≤ maxInt) :
    ((serve (monitor_handler asp) cs s).aspects asp).GetStats.1
      = (s.aspects asp).Count + cs.length :=
  serve_monitor_handler_count asp cs hframe s hlo hhi

theorem GetStats_after_requests_witness :
    ((serve (monitor_handler 0) fiveRequests exampleStore).aspects 0).GetStats.1 = 5
      ∧ ((serve (monitor_handler 0) [] exampleStore).aspects 0).GetStats.1 = 0 :=
  ⟨GetStats_after_requests 0 fiveRequests exampleStore
      (by intro c hc t; rw [List.eq_of_mem_replicate hc]) (by decide) (by decide),
    rfl⟩

/-- C8, at the largest Go int: one invocation of the hook takes Count from the maximum
to the minimum, not to the maximum plus one. -/
theorem monitor_handler_wraps_at_maxInt :
    ((monitor_handler 0 { Next := fun t => t }
        ({ aspects := fun _ => { Count := maxInt }, other := () } : Store Unit)).aspects 0).Count
      = minInt
    ∧ ¬ ((monitor_handler 0 { Next := fun t => t }
        ({ aspects := fun _ => { Count := maxInt }, other := () } : Store Unit)).aspects 0).Count
      = maxInt + 1 := by
  constructor <;> decide

/-- C8, amended: for a Count below the largest Go int, one invocation of the hook is
one call of Next on the state in which that aspect's Count is one more and everything
else (the other aspects, the rest of the memory) is as before. -/
theorem monitor_handler_increments_then_next {ρ : Type} (asp : Addr) (c : Context (Store ρ))
    (s : Store ρ) (hlo : minInt ≤ (s.aspects asp).Count)
    (hhi : (s.aspects asp).Count < maxInt) :
    ∃ s1 : Store ρ, monitor_handler asp c s = c.Next s1
      ∧ (s1.aspects asp).Count = (s.aspects asp).Count + 1
      ∧ (∀ q : Addr, q ≠ asp → s1.aspects q = s.aspects q)
      ∧ s1.other = s.other := by
  refine ⟨s.set asp (s.aspects asp).Inc, rfl, ?_, ?_, rfl⟩
  · rw [Store.set_same]
    show wrapInt ((s.aspects asp).Count + 1) = (s.aspects asp).Count + 1
    apply wrapInt_of_range <;> omega
  · intro q hq
    exact Store.set_other s asp q _ hq

theorem monitor_handler_increments_then_next_witness :
    ∃ s1 : Store (List Int),
      monitor_handler 0 observingContext { aspects := fun _ => { Count := 41 }, other := [] }
        = observingContext.Next s1
      ∧ (s1.aspects 0).Count = 41 + 1
      ∧ (∀ q : Addr, q ≠ 0 → s1.aspects q = { Count := 41 })
      ∧ s1.other = [] :=
  monitor_handler_increments_then_next 0 observingContext
    { aspects := fun _ => { Count := 41 }, other := [] } (by decide) (by decide)

/-! ## Metrics: the calls on the monitor -/

theorem foldl_AddAspect_calls {α : Type} (asp : List α) :
    ∀ p : Proc α, (asp.foldl (fun m aspect => AddAspect aspect m) p).calls
      = p.calls ++ asp.map Call.AddAspect := by
  induction asp with
  | nil => intro p; simp
  | cons a asp ih =>
    intro p
    rw [List.foldl_cons, ih]
    simp [AddAspect]

theorem Metrics_calls {α σ : Type} (port : Int) (asp : List α) (r : Option String)
    (p : Proc α) :
    (Metrics (σ := σ) port asp r p).1.calls
      = p.calls ++ Call.NewMonitor (Sprintf port) :: (asp.map Call.AddAspect ++ [Call.Start]) := by
  show ((asp.foldl (fun m aspect => AddAspect aspect m) (NewMonitor (Sprintf port) p)).calls
      ++ [Call.Start]) = _
  rw [foldl_AddAspect_calls]
  simp [NewMonitor]

theorem registered_append {α : Type} (xs ys : List (Call α)) :
    registered (xs ++ ys) = registered xs ++ registered ys := by
  induction xs with
  | nil => rfl
  | cons x xs ih => cases x <;> simp [registered, ih]

theorem registered_map_AddAspect {α : Type} (asp : List α) :
    registered (asp.map Call.AddAspect) = asp := by
  induction asp with
  | nil => rfl
  | cons a asp ih => simp [registered, ih]

theorem listenAddrs_append {α : Type} (xs ys : List (Call α)) :
    listenAddrs (xs ++ ys) = listenAddrs xs ++ listenAddrs ys := by
  induction xs with
  | nil => rfl
  | cons x xs ih => cases x <;> simp [listenAddrs, ih]

theorem listenAddrs_map_AddAspect {α : Type} (asp : List α) :
    listenAddrs (asp.map Call.AddAspect) = [] := by
  induction asp with
  | nil => rfl
  | cons a asp ih => simp [listenAddrs, ih]

theorem Metrics_listenAddrs {α σ : Type} (port : Int) (asp : List α) (r : Option String) :
    listenAddrs (Metrics (σ := σ) port asp r Proc.init).1.calls = [Sprintf port] := by
  rw [Metrics_calls]
  show listenAddrs (Call.NewMonitor (Sprintf port) :: (asp.map Call.AddAspect ++ [Call.Start]))
    = [Sprintf port]
  simp [listenAddrs, listenAddrs_append, listenAddrs_map_AddAspect]

/-- C1: whatever the port and the aspects, the handler Metrics returns is the identity
middleware: on every context and state its result is that of one call of Next, the
rest of the chain run directly; with a Next that counts its calls, the count goes up by
one. -/
theorem Metrics_handler_is_pass_through {α : Type} (port : Int) (asp : List α)
    (r : Option String) (p : Proc α) :
    (∀ (σ : Type) (c : Context σ) (s : σ), (Metrics port asp r p).2 c s = c.Next s)
      ∧ (∀ n : Nat, (Metrics port asp r p).2 { Next := Nat.succ } n = n + 1) :=
  ⟨fun _ _ _ => rfl, fun _ => rfl⟩

/-- C2: the sequence of AddAspect calls Metrics makes is the collection it was given,
each element once and in order, whether the collection is empty or has repetitions. -/
theorem Metrics_registers_exactly {α σ : Type} (port : Int) (asp : List α)
    (r : Option String) (p : Proc α) :
    registered (Metrics (σ := σ) port asp r Proc.init).1.calls = asp
      ∧ registered (Metrics (σ := σ) port asp r p).1.calls = registered p.calls ++ asp := by
  constructor
  · rw [Metrics_calls]
    show registered (Call.NewMonitor (Sprintf port) :: (asp.map Call.AddAspect ++ [Call.Start]))
      = asp
    simp [registered, registered_append, registered_map_AddAspect]
  · rw [Metrics_calls, registered_append]
    simp [registered, registered_append, registered_map_AddAspect]

/-- C10: the calls Metrics makes are: create the monitor, one AddAspect per aspect in
order, then Start, which is the last call and occurs nowhere before. -/
theorem Metrics_starts_once_after_registering {α σ : Type} (port : Int) (asp : List α)
    (r : Option String) (p : Proc α) :
    (Metrics (σ := σ) port asp r p).1.calls
        = p.calls ++ (Call.NewMonitor (Sprintf port) :: asp.map Call.AddAspect) ++ [Call.Start]
      ∧ Call.Start ∉ Call.NewMonitor (Sprintf port) :: asp.map Call.AddAspect := by
  constructor
  · rw [Metrics_calls]
    simp
  · simp

/-- C6, as stated, fails: with port 9000 occupied and Start returning the bind error,
Metrics gives its caller the same result as when Start succeeds. -/
theorem Metrics_hides_start_failure :
    Metrics (α := Nat) (σ := Unit) 9000 [] (some "listen tcp :9000: bind: address already in use")
        Proc.init
      = Metrics (α := Nat) (σ := Unit) 9000 [] none Proc.init :=
  rfl

/-- C6, amended: the result of Metrics, the calls made and the handler returned, does
not depend on what Start returns in its goroutine; a bind failure is not reported to
the caller. -/
theorem Metrics_result_independent_of_start {α σ : Type} (port : Int) (asp : List α)
    (e : String) (p : Proc α) :
    Metrics (σ := σ) port asp (some e) p = Metrics (σ := σ) port asp none p :=
  rfl

/-! ## Metrics: the listen address -/

theorem digitByte_toNat (d : Nat) (h : d < 10) : (digitByte d).toNat = 48 + d := by
  interval_cases d <;> rfl

theorem digitByte_isDigit (d : Nat) (h : d < 10) : (digitByte d).isDigit = true := by
  interval_cases d <;> rfl

theorem digitByte_ne_zero (d : Nat) (h : d < 10) (hpos : 0 < d) : digitByte d ≠ '0' := by
  interval_cases d <;> decide

theorem fmtDigits_append (fuel : Nat) :
    ∀ (u : Nat) (buf : List Char), fmtDigits fuel u buf = fmtDigits fuel u [] ++ buf := by
  induction fuel with
  | zero => intro u buf; rfl
  | succ fuel ih =>
    intro u buf
    by_cases h : 10 ≤ u
    · simp only [fmtDigits, h, if_true]
      rw [ih (u / 10) (digitByte (u % 10) :: buf), ih (u / 10) [digitByte (u % 10)]]
      simp
    · simp [fmtDigits, h]

theorem decimalValue_append_singleton (xs : List Char) (ch : Char) :
    decimalValue (xs ++ [ch]) = 10 * decimalValue xs + (ch.toNat - 48) := by
  simp [decimalValue, List.foldl_append]

/-- What `fmtDigits` writes for `u`, given enough iterations: digits only, at least one,
no leading zero for a positive `u`, and of value `u`. -/
theorem fmtDigits_spec (fuel : Nat) :
    ∀ u : Nat, u < fuel →
      decimalValue (fmtDigits fuel u []) = u
        ∧ (∀ ch ∈ fmtDigits fuel u [], ch.isDigit = true)
        ∧ fmtDigits fuel u [] ≠ []
        ∧ (0 < u → (fmtDigits fuel u []).head? ≠ some '0') := by
  induction fuel with
  | zero => intro u hu; omega
  | succ fuel ih =>
    intro u hu
    by_cases h : 10 ≤ u
    · have hdiv : u / 10 < fuel := by omega
      have hmod : u % 10 < 10 := Nat.mod_lt u (by decide)
      obtain ⟨hval, hdig, hne, hhead⟩ := ih (u / 10) hdiv
      have hunf : fmtDigits (fuel + 1) u [] = fmtDigits fuel (u / 10) [] ++ [digitByte (u % 10)] := by
        simp only [fmtDigits, h, if_true]
        exact fmtDigits_append fuel (u / 10) [digitByte (u % 10)]
      rw [hunf]
      refine ⟨?_, ?_, ?_, ?_⟩
      · rw [decimalValue_append_singleton, hval, digitByte_toNat _ hmod]
        omega
      · intro ch hch
        rcases List.mem_append.mp hch with hl | hr
        · exact hdig ch hl
        · rw [List.mem_singleton.mp hr]
          exact digitByte_isDigit _ hmod
      · simp
      · intro _
        have hpos : 0 < u / 10 := by omega
        have := hhead hpos
        cases hds : fmtDigits fuel (u / 10) [] with
        | nil => exact absurd hds hne
        | cons d ds =>
          rw [hds] at this
          simpa using this
    · have hlt : u < 10 := by omega
      have hunf : fmtDigits (fuel + 1) u [] = [digitByte u] := by
        simp [fmtDigits, h]
      rw [hunf]
      refine ⟨?_, ?_, ?_, ?_⟩
      · simp [decimalValue, digitByte_toNat _ hlt]
      · intro ch hch
        rw [List.mem_singleton.mp hch]
        exact digitByte_isDigit _ hlt
      · simp
      · intro hpos
        have := digitByte_ne_zero u hlt hpos
        simpa using this

theorem fmtInteger_of_pos (p : Int) (hp : 0 < p) :
    fmtInteger p = fmtDigits (p.natAbs + 1) p.natAbs [] := by
  unfold fmtInteger
  rw [if_neg (by omega)]

theorem Sprintf_injective_of_pos (p q : Int) (hp : 0 < p) (hq : 0 < q)
    (h : Sprintf p = Sprintf q) : p = q := by
  unfold Sprintf at h
  rw [fmtInteger_of_pos p hp, fmtInteger_of_pos q hq] at h
  have hds : fmtDigits (p.natAbs + 1) p.natAbs [] = fmtDigits (q.natAbs + 1) q.natAbs [] :=
    List.tail_eq_of_cons_eq (congrArg String.data h)
  have h1 := (fmtDigits_spec (p.natAbs + 1) p.natAbs (Nat.lt_succ_self _)).1
  have h2 := (fmtDigits_spec (q.natAbs + 1) q.natAbs (Nat.lt_succ_self _)).1
  rw [hds, h2] at h1
  omega

/-- C5: for a positive port p the monitor is created with the address made of a colon
and the decimal digits of p (digits only, no leading zero, of value p); the address
is the same for every aspect collection and differs for every other positive port. -/
theorem Metrics_listen_address {α σ : Type} (p : Int) (hp : 0 < p) (asp : List α)
    (r : Option String) :
    (∃ ds : List Char,
        listenAddrs (Metrics (σ := σ) p asp r Proc.init).1.calls = [String.mk (':' :: ds)]
          ∧ ds ≠ [] ∧ (∀ ch ∈ ds, ch.isDigit = true) ∧ ds.head? ≠ some '0'
          ∧ (decimalValue ds : Int) = p)
      ∧ (∀ (asp2 : List α) (r2 : Option String),
          listenAddrs (Metrics (σ := σ) p asp2 r2 Proc.init).1.calls
            = listenAddrs (Metrics (σ := σ) p asp r Proc.init).1.calls)
      ∧ (∀ (q : Int) (asp2 : List α) (r2 : Option String), 0 < q → q ≠ p →
          listenAddrs (Metrics (σ := σ) q asp2 r2 Proc.init).1.calls
            ≠ listenAddrs (Metrics (σ := σ) p asp r Proc.init).1.calls) := by
  refine ⟨?_, ?_, ?_⟩
  · obtain ⟨hval, hdig, hne, hhead⟩ :=
      fmtDigits_spec (p.natAbs + 1) p.natAbs (Nat.lt_succ_self _)
    refine ⟨fmtDigits (p.natAbs + 1) p.natAbs [], ?_, hne, hdig, hhead (by omega), ?_⟩
    · rw [Metrics_listenAddrs, Sprintf, fmtInteger_of_pos p hp]
    · rw [hval]
      omega
  · intro asp2 r2
    rw [Metrics_listenAddrs, Metrics_listenAddrs]
  · intro q asp2 r2 hq hne h
    rw [Metrics_listenAddrs, Metrics_listenAddrs] at h
    exact hne (Sprintf_injective_of_pos q p hq hp (by simpa using h))

theorem Metrics_listen_address_witness :
    listenAddrs (Metrics (α := Nat) (σ := Unit) 9000 [] none Proc.init).1.calls = [":9000"]
      ∧ (∃ ds : List Char,
          listenAddrs (Metrics (α := Nat) (σ := Unit) 9000 [] none Proc.init).1.calls
              = [String.mk (':' :: ds)]
            ∧ ds ≠ [] ∧ (∀ ch ∈ ds, ch.isDigit = true) ∧ ds.head? ≠ some '0'
            ∧ (decimalValue ds : Int) = 9000)
      ∧ (∀ (asp2 : List Nat) (r2 : Option String),
          listenAddrs (Metrics (σ := Unit) 9000 asp2 r2 Proc.init).1.calls
            = listenAddrs (Metrics (α := Nat) (σ := Unit) 9000 [] none Proc.init).1.calls)
      ∧ (∀ (q : Int) (asp2 : List Nat) (r2 : Option String), 0 < q → q ≠ 9000 →
          listenAddrs (Metrics (σ := Unit) q asp2 r2 Proc.init).1.calls
            ≠ listenAddrs (Metrics (α := Nat) (σ := Unit) 9000 [] none Proc.init).1.calls) :=
  ⟨by decide, Metrics_listen_address 9000 (by decide) [] none⟩

/-! ## Two concurrent bursts -/

/-- Outside any increment, the two accesses of one invocation, run back to back, add
one to Count and end outside any increment. -/
theorem Race.step_step (t : Tid) (r : Race) (hA : r.loadedA = none) (hB : r.loadedB = none) :
    ((r.step t).step t).asp.Count = wrapInt (r.asp.Count + 1)
      ∧ ((r.step t).step t).loadedA = none ∧ ((r.step t).step t).loadedB = none := by
  cases t <;> simp [Race.step, hA, hB]

theorem Race.run_serial (order : List Tid) :
    ∀ r : Race, r.loadedA = none → r.loadedB = none → minInt ≤ r.asp.Count →
      r.asp.Count + order.length ≤ maxInt →
      (Race.run (serial order) r).asp.Count = r.asp.Count + order.length := by
  induction order with
  | nil => intro r _ _ _ _; simp [serial, Race.run]
  | cons t order ih =>
    intro r hA hB hlo hhi
    have hlen : ((t :: order).length : Int) = (order.length : Int) + 1 := by
      simp [List.length_cons]
    rw [hlen] at hhi
    have hnn : (0 : Int) ≤ (order.length : Int) := Int.ofNat_nonneg _
    obtain ⟨hc, hA2, hB2⟩ := Race.step_step t r hA hB
    rw [wrapInt_of_range _ (by omega) (by omega)] at hc
    show (Race.run (serial order) ((r.step t).step t)).asp.Count = _
    rw [ih _ hA2 hB2 (by rw [hc]; omega) (by rw [hc]; omega), hc, hlen]
    ring

theorem count_serial (t : Tid) (order : List Tid) :
    (serial order).count t = 2 * order.count t := by
  induction order with
  | nil => rfl
  | cons u order ih =>
    show (u :: u :: serial order).count t = 2 * (u :: order).count t
    rw [List.count_cons, List.count_cons, List.count_cons, ih]
    split <;> omega

theorem length_eq_count_add_count (order : List Tid) :
    order.length = order.count Tid.A + order.count Tid.B := by
  induction order with
  | nil => rfl
  | cons u order ih =>
    rw [List.length_cons, List.count_cons, List.count_cons, ih]
    cases u <;> simp <;> omega

/-- C7, as stated, fails: in the schedule where burst A reads Count, burst B runs its
100 requests, and A then writes and runs its other 99, both bursts are complete and
GetStats returns 100, not 200. -/
theorem lost_update_two_bursts :
    IsInterleaving 100 (lostUpdate 100)
      ∧ ((Race.init 0).run (lostUpdate 100)).asp.GetStats.1 = 100
      ∧ ¬ ((Race.init 0).run (lostUpdate 100)).asp.GetStats.1 = 200 := by
  refine ⟨⟨?_, ?_⟩, ?_, ?_⟩ <;> decide

/-- C7, amended: when the invocations of the two bursts of 100 requests run one at a
time, in whatever order, GetStats then returns 200. -/
theorem serial_two_bursts (order : List Tid) (hA : order.count Tid.A = 100)
    (hB : order.count Tid.B = 100) :
    IsInterleaving 100 (serial order)
      ∧ ((Race.init 0).run (serial order)).asp.GetStats.1 = 200 := by
  have hlen : order.length = 200 := by
    rw [length_eq_count_add_count, hA, hB]
  refine ⟨⟨?_, ?_⟩, ?_⟩
  · rw [count_serial, hA]
  · rw [count_serial, hB]
  · show ((Race.init 0).run (serial order)).asp.Count = 200
    rw [Race.run_serial order (Race.init 0) rfl rfl (by decide) (by rw [hlen]; decide), hlen]
    rfl

theorem serial_two_bursts_witness :
    IsInterleaving 100 (serial (alternating 100))
      ∧ ((Race.init 0).run (serial (alternating 100))).asp.GetStats.1 = 200 :=
  serial_two_bursts (alternating 100) (by decide) (by decide)

end Gomonitor
